import Mathlib

/-!
# Interactive note finder (`adapter/fzf/finder.go`)

A shallow embedding of `NoteFinder.Find` and `popInteractiveFilter`.

* Go slices are Lean lists, a Go `error` value is `Option Error` (`none` is `nil`).
* Calls that leave the function (`f.finder.Find`, `os.Executable`, `New`, `Add`,
  `Selection`, `MustStyle`) are recorded, in call order, in a list of `Event`s that
  `Find` returns next to its outcome.
* A Go run-time panic (index out of range on `s[0]`, a `MustStyle` that does not
  return) is the `Outcome.panicked` result.
-/

namespace Fzf

/-- A Go `error` value that is not `nil`. -/
structure Error where
  msg : String
deriving DecidableEq, Repr

/-- Modelled from the spec: `zk.Dir` is declared outside this file; `Find` reads
its `Name` and `Path` fields. -/
structure Dir where
  Name : String
  Path : String
deriving DecidableEq, Repr

/-- Modelled from the spec: `note.Match` is declared outside this file; the spec
gives it a `Path` (stable unique identifier), a `Title` and a `Body` (ordered
sequence of text lines). -/
structure Match where
  Path : String
  Title : String
  Body : List String
deriving DecidableEq, Repr

/-- Modelled from the spec: `note.Filter` is a polymorphic criterion declared
outside this file. `InteractiveFilter` is the boolean variant
(`type InteractiveFilter bool`); every other variant is `other`, carrying its
content. -/
inductive Filter where
  | InteractiveFilter (b : Bool)
  | other (criterion : String)
deriving DecidableEq, Repr

/-- Modelled from the spec: `note.FinderOpts` is declared outside this file: an
ordered collection of filters plus other backend-specific options. -/
structure FinderOpts where
  Filters : List Filter
  Other : String
deriving DecidableEq, Repr

/-- The two style rules `Find` uses (`style.RuleYellow`, `style.RuleBlack`). -/
inductive Rule where
  | RuleYellow
  | RuleBlack
deriving DecidableEq, Repr

/-- Modelled from the spec: `style.Styler` is declared outside this file.
`MustStyle` has a single `string` result in `Find`; a styling failure therefore
cannot be returned and is a call that does not return (`Except.error`, carrying
the style error the call dies with). -/
structure Styler where
  MustStyle : String → Rule → Except Error String

/-- A key binding of the picker: `Binding{Keys, Description, Action}`. -/
structure Binding where
  Keys : String
  Description : String
  Action : String
deriving DecidableEq, Repr

/-- The configuration given to `New`: `Opts{PreviewCmd, Padding, Bindings}`. -/
structure Opts where
  PreviewCmd : Option String
  Padding : Int
  Bindings : List Binding
deriving DecidableEq, Repr

/-- A row of the picker: `[]string`. -/
abbrev Row := List String

/-- The options of a `NoteFinder` (`NoteFinderOpts`). -/
structure NoteFinderOpts where
  AlwaysFilter : Bool
  NewNoteDir : Option Dir
deriving DecidableEq, Repr

/-- The `NoteFinder` value: the options, the wrapped backend finder (`note.Finder.Find`,
returning matches and an error) and the styler. -/
structure NoteFinder where
  opts : NoteFinderOpts
  finder : FinderOpts → List Match × Option Error
  styler : Styler

/-- What `Find` calls outside `finder.go` besides its own fields: the process
environment (`os.Executable`), the string helper `stringsutil.JoinLines` and the
picker (`New`, `Selection`). The selection the user makes is a function of the
session's configuration and of the rows fed to it. -/
structure World where
  Executable : Except Error String
  JoinLines : List String → String
  New : Opts → Option Error
  Selection : Opts → List Row → Except Error (List Row)

/-- The calls `Find` makes to its collaborators. -/
inductive Event where
  | finderFind (opts : FinderOpts)
  | osExecutable
  | fzfNew (opts : Opts)
  | mustStyle (text : String) (rule : Rule)
  | fzfAdd (row : Row)
  | fzfSelection
deriving DecidableEq, Repr

/-- The reasons `Find` can panic. -/
inductive Panic where
  | indexOutOfRange
  | styleFailed (e : Error)
deriving DecidableEq, Repr

/-- How a call of `Find` ends: it returns `([]note.Match, error)` or it panics. -/
inductive Outcome where
  | returned (result : List Match) (err : Option Error)
  | panicked (p : Panic)
deriving DecidableEq, Repr

/-- The loop of `popInteractiveFilter` (lines 106-112), from the state
`(isInteractive, filters)`. -/
def popLoop : List Filter → Bool → List Filter → Bool × List Filter
  | [], isInteractive, filters => (isInteractive, filters)
  | Filter.InteractiveFilter f :: rest, _, filters => popLoop rest f filters
  | filter :: rest, isInteractive, filters => popLoop rest isInteractive (filters ++ [filter])

/-- The function `popInteractiveFilter` (lines 102-116). -/
def popInteractiveFilter (opts : FinderOpts) : Bool × FinderOpts :=
  let r := popLoop opts.Filters false []
  (r.1, { opts with Filters := r.2 })

/-- The bindings built at lines 52-65. -/
def bindings (newNoteDir : Option Dir) (zkBin : String) : List Binding :=
  match newNoteDir with
  | none => []
  | some dir =>
    let suffix := if dir.Name ≠ "" then " in " ++ dir.Name ++ "/" else ""
    [] ++ [{ Keys := "Ctrl-N"
             Description := "create a note with the query as title" ++ suffix
             Action := "abort+execute(" ++ zkBin ++ " new " ++ dir.Path
                         ++ " --title \x7bq\x7d < /dev/tty > /dev/tty)" }]

/-- The `Opts` value given to `New` at lines 67-72. -/
def fzfOpts (newNoteDir : Option Dir) (zkBin : String) : Opts :=
  { PreviewCmd := some (zkBin ++ " list -f \x7b\x7braw-content\x7d\x7d \x7b1\x7d")
    Padding := 2
    Bindings := bindings newNoteDir zkBin }

/-- The feeding loop (lines 77-83) from the state `(events so far, rows added so
far)`: for each match the title is styled, then the joined body, then the row is
added. A `MustStyle` that does not return ends the loop with its error. -/
def feedLoop (styler : Styler) (joinLines : List String → String) :
    List Match → List Event → List Row → List Event × Except Error (List Row)
  | [], events, rows => (events, .ok rows)
  | m :: rest, events, rows =>
    match styler.MustStyle m.Title Rule.RuleYellow with
    | .error e => (events ++ [Event.mustStyle m.Title Rule.RuleYellow], .error e)
    | .ok title =>
      match styler.MustStyle (joinLines m.Body) Rule.RuleBlack with
      | .error e =>
        (events ++ [Event.mustStyle m.Title Rule.RuleYellow,
                    Event.mustStyle (joinLines m.Body) Rule.RuleBlack], .error e)
      | .ok body =>
        feedLoop styler joinLines rest
          (events ++ [Event.mustStyle m.Title Rule.RuleYellow,
                      Event.mustStyle (joinLines m.Body) Rule.RuleBlack,
                      Event.fzfAdd [m.Path, title, body]])
          (rows ++ [[m.Path, title, body]])

/-- The inner loop of the reconciliation (lines 92-96): every match whose `Path`
equals `path` is appended to `selectedMatches`. -/
def selectLoop (path : String) : List Match → List Match → List Match
  | [], selectedMatches => selectedMatches
  | m :: rest, selectedMatches =>
    selectLoop path rest (if m.Path = path then selectedMatches ++ [m] else selectedMatches)

/-- The reconciliation loop (lines 90-97) from the state `selectedMatches`;
`s[0]` on a row without columns is an index-out-of-range panic. -/
def reconcileLoop (ms : List Match) : List Row → List Match → Except Panic (List Match)
  | [], selectedMatches => .ok selectedMatches
  | s :: rest, selectedMatches =>
    match s with
    | [] => .error Panic.indexOutOfRange
    | path :: _ => reconcileLoop ms rest (selectLoop path ms selectedMatches)

/-- The method `NoteFinder.Find` (lines 37-100): the calls made, in order, and the
outcome. -/
def NoteFinder.Find (f : NoteFinder) (w : World) (opts : FinderOpts) : List Event × Outcome :=
  let isInteractive := (popInteractiveFilter opts).1
  let opts := (popInteractiveFilter opts).2
  let ms := (f.finder opts).1
  let err := (f.finder opts).2
  let t1 := [Event.finderFind opts]
  if !isInteractive || err.isSome || (!f.opts.AlwaysFilter && ms.length == 0) then
    (t1, Outcome.returned ms err)
  else
    let selectedMatches : List Match := []
    let t2 := t1 ++ [Event.osExecutable]
    match w.Executable with
    | .error e => (t2, Outcome.returned selectedMatches (some e))
    | .ok zkBin =>
      let o := fzfOpts f.opts.NewNoteDir zkBin
      let t3 := t2 ++ [Event.fzfNew o]
      match w.New o with
      | some e => (t3, Outcome.returned selectedMatches (some e))
      | none =>
        match feedLoop f.styler w.JoinLines ms t3 [] with
        | (t4, .error e) => (t4, Outcome.panicked (Panic.styleFailed e))
        | (t4, .ok rows) =>
          let t5 := t4 ++ [Event.fzfSelection]
          match w.Selection o rows with
          | .error e => (t5, Outcome.returned selectedMatches (some e))
          | .ok selection =>
            match reconcileLoop ms selection selectedMatches with
            | .error p => (t5, Outcome.panicked p)
            | .ok result => (t5, Outcome.returned result none)

/-- Whether a filter is the `InteractiveFilter` variant (the type test of line 107). -/
def isInteractiveFilter : Filter → Bool
  | Filter.InteractiveFilter _ => true
  | Filter.other _ => false

/-- The rows `Find` adds to the picker for the base matches (lines 77-83), when
every `MustStyle` call returns. -/
def fedRows (styler : Styler) (joinLines : List String → String) (ms : List Match) :
    Except Error (List Row) :=
  (feedLoop styler joinLines ms [] []).2

/-- Whether the picker was invoked: the recorded calls include `New`. -/
def opensPicker (events : List Event) : Bool :=
  events.any (fun e => match e with
    | Event.fzfNew _ => true
    | _ => false)

/-- The rows given to `Add`, in call order. -/
def addedRows (events : List Event) : List Row :=
  events.filterMap (fun e => match e with
    | Event.fzfAdd row => some row
    | _ => none)

/-! ## Concrete inputs -/

/-- Three notes with distinct paths. -/
def exA : Match := { Path := "a.md", Title := "Alpha", Body := ["first", "second"] }

def exB : Match := { Path := "b.md", Title := "Beta", Body := [] }

def exC : Match := { Path := "c.md", Title := "Gamma", Body := ["only"] }

/-- A second note stored under the path of `exA`. -/
def exA2 : Match := { Path := "a.md", Title := "Alpha again", Body := [] }

/-- A styler that returns its text as it is. -/
def exStyler : Styler := { MustStyle := fun text _ => .ok text }

/-- A finder whose backend answers every query with `base`. -/
def exFinder (always : Bool) (base : List Match × Option Error) : NoteFinder :=
  { opts := { AlwaysFilter := always, NewNoteDir := none }
    finder := fun _ => base
    styler := exStyler }

/-- A world where the executable resolves, the session opens and the user's
selection is `pick` of the rows shown. -/
def exWorld (pick : List Row → Except Error (List Row)) : World :=
  { Executable := .ok "/usr/local/bin/zk"
    JoinLines := fun lines => " ".intercalate lines
    New := fun _ => none
    Selection := fun _ rows => pick rows }

/-- A world where the executable path cannot be resolved. -/
def exWorldNoBin : World :=
  { Executable := .error { msg := "no executable" }
    JoinLines := fun lines => " ".intercalate lines
    New := fun _ => none
    Selection := fun _ rows => .ok rows }

/-- Options with one `InteractiveFilter(true)` between two other filters. -/
def exOpts : FinderOpts :=
  { Filters := [Filter.other "tag:book", Filter.InteractiveFilter true, Filter.other "limit:5"]
    Other := "sort:created" }

/-- Options without an `InteractiveFilter`. -/
def exOptsPlain : FinderOpts :=
  { Filters := [Filter.other "tag:book", Filter.other "limit:5"]
    Other := "sort:created" }

/-- The directory `journal`, named `journal`. -/
def exJournal : Dir := { Name := "journal", Path := "journal" }

/-- A styler that fails on every text. -/
def exFailStyler : Styler := { MustStyle := fun _ _ => .error { msg := "unknown rule" } }

/-- A finder with every field given. -/
def exFinderWith (always : Bool) (dir : Option Dir) (styler : Styler)
    (base : List Match × Option Error) : NoteFinder :=
  { opts := { AlwaysFilter := always, NewNoteDir := dir }
    finder := fun _ => base
    styler := styler }

/-- A world where the executable resolves and the session cannot be opened. -/
def exWorldNoSession : World :=
  { Executable := .ok "/usr/local/bin/zk"
    JoinLines := fun lines => " ".intercalate lines
    New := fun _ => some { msg := "fzf not found" }
    Selection := fun _ rows => .ok rows }

/-- A styler that fails on the title `Beta` with one error and on an empty body
with another, and returns every other text as it is. -/
def exPickyStyler : Styler :=
  { MustStyle := fun text rule =>
      match rule with
      | Rule.RuleYellow => if text = "Beta" then .error { msg := "bad title" } else .ok text
      | Rule.RuleBlack => if text = "" then .error { msg := "bad body" } else .ok text }

/-! ## The filter-intent extractor -/

theorem popLoop_snd (l : List Filter) (b : Bool) (acc : List Filter) :
    (popLoop l b acc).2 = acc ++ l.filter (fun x => !isInteractiveFilter x) := by
  induction l generalizing b acc with
  | nil => simp [popLoop]
  | cons x rest ih =>
    cases x with
    | InteractiveFilter v => simp [popLoop, ih, isInteractiveFilter]
    | other c => simp [popLoop, ih, isInteractiveFilter]

theorem popLoop_plain (l : List Filter) (b : Bool) (acc : List Filter)
    (h : ∀ x ∈ l, isInteractiveFilter x = false) : popLoop l b acc = (b, acc ++ l) := by
  induction l generalizing b acc with
  | nil => simp [popLoop]
  | cons x rest ih =>
    cases x with
    | InteractiveFilter v => simpa [isInteractiveFilter] using h (Filter.InteractiveFilter v)
    | other c =>
      have hrest : ∀ y ∈ rest, isInteractiveFilter y = false :=
        fun y hy => h y (List.mem_cons_of_mem _ hy)
      simp [popLoop, ih _ _ hrest]

theorem popLoop_append (l₁ l₂ : List Filter) (b : Bool) (acc : List Filter) :
    popLoop (l₁ ++ l₂) b acc = popLoop l₂ (popLoop l₁ b acc).1 (popLoop l₁ b acc).2 := by
  induction l₁ generalizing b acc with
  | nil => simp [popLoop]
  | cons x rest ih =>
    cases x with
    | InteractiveFilter v => simp [popLoop, ih]
    | other c => simp [popLoop, ih]

theorem popInteractiveFilter_snd (opts : FinderOpts) :
    (popInteractiveFilter opts).2 =
      { opts with Filters := opts.Filters.filter (fun x => !isInteractiveFilter x) } := by
  simp [popInteractiveFilter, popLoop_snd]

/-! ## The feeding loop -/

theorem feedLoop_events (styler : Styler) (jl : List String → String) (ms : List Match)
    (events : List Event) (rows : List Row) :
    ∃ extra, (feedLoop styler jl ms events rows).1 = events ++ extra ∧
      ∀ e ∈ extra, ∀ o, e ≠ Event.finderFind o := by
  induction ms generalizing events rows with
  | nil => exact ⟨[], by simp [feedLoop]⟩
  | cons m rest ih =>
    unfold feedLoop
    cases h₁ : styler.MustStyle m.Title Rule.RuleYellow with
    | error e => exact ⟨_, rfl, by simp⟩
    | ok title =>
      cases h₂ : styler.MustStyle (jl m.Body) Rule.RuleBlack with
      | error e => exact ⟨_, rfl, by simp⟩
      | ok body =>
        obtain ⟨extra, hx, hno⟩ := ih
          (events ++ [Event.mustStyle m.Title Rule.RuleYellow,
                      Event.mustStyle (jl m.Body) Rule.RuleBlack,
                      Event.fzfAdd [m.Path, title, body]])
          (rows ++ [[m.Path, title, body]])
        refine ⟨[Event.mustStyle m.Title Rule.RuleYellow,
                 Event.mustStyle (jl m.Body) Rule.RuleBlack,
                 Event.fzfAdd [m.Path, title, body]] ++ extra, ?_, ?_⟩
        · simp only [hx, List.append_assoc]
        · intro e he o
          rcases List.mem_append.1 he with h | h
          · simp at h
            rcases h with h | h | h <;> simp [h]
          · exact hno e h o

theorem feedLoop_rows (styler : Styler) (jl : List String → String) (ms : List Match)
    (events : List Event) (rows : List Row) :
    (feedLoop styler jl ms events rows).2 =
      (fedRows styler jl ms).map (fun added => rows ++ added) := by
  unfold fedRows
  induction ms generalizing events rows with
  | nil => simp [feedLoop, Except.map]
  | cons m rest ih =>
    unfold feedLoop
    cases h₁ : styler.MustStyle m.Title Rule.RuleYellow with
    | error e => simp [Except.map]
    | ok title =>
      cases h₂ : styler.MustStyle (jl m.Body) Rule.RuleBlack with
      | error e => simp [Except.map]
      | ok body =>
        simp only []
        rw [ih, ih ([] ++ _) ([] ++ _)]
        generalize (feedLoop styler jl rest [] []).2 = r
        cases r <;> simp [Except.map]

/-! ## The reconciliation loop -/

theorem selectLoop_eq (path : String) (ms acc : List Match) :
    selectLoop path ms acc = acc ++ ms.filter (fun m => m.Path = path) := by
  induction ms generalizing acc with
  | nil => simp [selectLoop]
  | cons m rest ih =>
    unfold selectLoop
    by_cases h : m.Path = path <;> simp [h, ih]

theorem filter_path_eq_find (path : String) (ms : List Match)
    (hnd : (ms.map Match.Path).Nodup) :
    ms.filter (fun m => m.Path = path) = (ms.find? (fun m => m.Path = path)).toList := by
  induction ms with
  | nil => simp
  | cons m rest ih =>
    rw [List.map_cons, List.nodup_cons] at hnd
    by_cases h : m.Path = path
    · have hnone : rest.filter (fun x => x.Path = path) = [] := by
        rw [List.filter_eq_nil_iff]
        intro x hx hp
        exact hnd.1 (List.mem_map.2 ⟨x, hx, by simpa [h] using hp⟩)
      simp [List.filter_cons, List.find?_cons, h, hnone]
    · simp [List.filter_cons, List.find?_cons, h, ih hnd.2]

theorem find_path_of_mem (ms : List Match) (hnd : (ms.map Match.Path).Nodup)
    (m : Match) (hm : m ∈ ms) : ms.find? (fun x => x.Path = m.Path) = some m := by
  induction ms with
  | nil => simp at hm
  | cons x rest ih =>
    rw [List.map_cons, List.nodup_cons] at hnd
    by_cases hx : x = m
    · subst hx; simp [List.find?_cons]
    · have hm' : m ∈ rest := by
        rcases List.mem_cons.1 hm with h | h
        · exact absurd h.symm hx
        · exact h
      have hne : ¬ x.Path = m.Path := fun h =>
        hnd.1 (List.mem_map.2 ⟨m, hm', h.symm⟩)
      simp [List.find?_cons, hne, ih hnd.2 hm']

theorem reconcileLoop_ok (ms : List Match) (selection : List Row) (acc : List Match)
    (hrows : ∀ s ∈ selection, s ≠ []) :
    reconcileLoop ms selection acc =
      .ok (acc ++ selection.flatMap
        (fun s => ms.filter (fun m => s.head? = some m.Path))) := by
  induction selection generalizing acc with
  | nil => simp [reconcileLoop]
  | cons s rest ih =>
    have hrest : ∀ t ∈ rest, t ≠ [] := fun t ht => hrows t (List.mem_cons_of_mem _ ht)
    cases s with
    | nil => exact absurd rfl (hrows [] (List.mem_cons_self _ _))
    | cons path cols =>
      simp only [reconcileLoop, ih _ hrest, selectLoop_eq, List.flatMap_cons, List.head?_cons,
        List.append_assoc, Option.some.injEq]
      simp only [eq_comm]

theorem reconcileLoop_nodup (ms : List Match) (selection : List Row) (acc : List Match)
    (hnd : (ms.map Match.Path).Nodup) (hrows : ∀ s ∈ selection, s ≠ []) :
    reconcileLoop ms selection acc =
      .ok (acc ++ selection.filterMap
        (fun s => ms.find? (fun m => s.head? = some m.Path))) := by
  rw [reconcileLoop_ok ms selection acc hrows]
  congr 2
  induction selection with
  | nil => simp
  | cons s rest ih =>
    have hrest : ∀ t ∈ rest, t ≠ [] := fun t ht => hrows t (List.mem_cons_of_mem _ ht)
    cases s with
    | nil => exact absurd rfl (hrows [] (List.mem_cons_self _ _))
    | cons path cols =>
      have hf := filter_path_eq_find path ms hnd
      simp only [List.flatMap_cons, List.filterMap_cons, List.head?_cons, Option.some.injEq,
        ih hrest]
      simp only [eq_comm] at hf ⊢
      rw [hf]
      cases ms.find? (fun m => decide (path = m.Path)) <;> simp

theorem reconcileLoop_members (ms picked : List Match) (selection : List Row)
    (hnd : (ms.map Match.Path).Nodup) (hmem : ∀ m ∈ picked, m ∈ ms)
    (hcol : selection.map List.head? = picked.map (fun m => some m.Path)) :
    reconcileLoop ms selection [] = .ok picked := by
  have hrows : ∀ s ∈ selection, s ≠ [] := by
    intro s hs hnil
    have h₁ : s.head? ∈ selection.map List.head? := List.mem_map.2 ⟨s, hs, rfl⟩
    rw [hcol, hnil] at h₁
    simp at h₁
  rw [reconcileLoop_nodup ms selection [] hnd hrows, List.nil_append]
  have hfm : selection.filterMap (fun s => ms.find? (fun m => s.head? = some m.Path)) =
      (selection.map List.head?).filterMap
        (fun h => ms.find? (fun m => h = some m.Path)) := by
    rw [List.filterMap_map]; rfl
  rw [hfm, hcol, List.filterMap_map]
  have hsome : picked.filterMap
      ((fun h => ms.find? (fun m => h = some m.Path)) ∘ fun m => some m.Path) =
      picked.filterMap some := by
    apply List.filterMap_congr
    intro m hm
    have := find_path_of_mem ms hnd m (hmem m hm)
    simp only [Function.comp, Option.some.injEq]
    rw [← this]
    congr 1
    funext x
    simp only [eq_comm]
  rw [hsome, List.filterMap_some]

theorem fedRows_cons (styler : Styler) (jl : List String → String) (m : Match)
    (rest : List Match) (title body : String)
    (h₁ : styler.MustStyle m.Title Rule.RuleYellow = .ok title)
    (h₂ : styler.MustStyle (jl m.Body) Rule.RuleBlack = .ok body) :
    fedRows styler jl (m :: rest) =
      (fedRows styler jl rest).map (fun added => [m.Path, title, body] :: added) := by
  have h := feedLoop_rows styler jl rest
    ([] ++ [Event.mustStyle m.Title Rule.RuleYellow,
            Event.mustStyle (jl m.Body) Rule.RuleBlack,
            Event.fzfAdd [m.Path, title, body]])
    ([] ++ [[m.Path, title, body]])
  unfold fedRows at h ⊢
  rw [feedLoop]
  simp only [h₁, h₂]
  rw [h]
  rfl

theorem fedRows_ok (styler : Styler) (jl : List String → String) (ms : List Match)
    (hsty : ∀ m ∈ ms, (∃ t, styler.MustStyle m.Title Rule.RuleYellow = .ok t) ∧
      ∃ b, styler.MustStyle (jl m.Body) Rule.RuleBlack = .ok b) :
    ∃ rows, fedRows styler jl ms = .ok rows ∧
      rows.map List.head? = ms.map (fun m => some m.Path) := by
  induction ms with
  | nil => exact ⟨[], rfl, rfl⟩
  | cons m rest ih =>
    obtain ⟨⟨t, ht⟩, ⟨b, hb⟩⟩ := hsty m (List.mem_cons_self _ _)
    obtain ⟨rows, hr, hc⟩ := ih (fun x hx => hsty x (List.mem_cons_of_mem _ hx))
    refine ⟨[m.Path, t, b] :: rows, ?_, ?_⟩
    · rw [fedRows_cons styler jl m rest t b ht hb, hr]; rfl
    · simp [hc]

theorem fedRows_cols (styler : Styler) (jl : List String → String) (ms : List Match)
    (rows : List Row) (h : fedRows styler jl ms = .ok rows) :
    rows.map List.head? = ms.map (fun m => some m.Path) := by
  induction ms generalizing rows with
  | nil =>
    simp only [fedRows, feedLoop, Except.ok.injEq] at h
    simp [← h]
  | cons m rest ih =>
    cases h₁ : styler.MustStyle m.Title Rule.RuleYellow with
    | error e => simp [fedRows, feedLoop, h₁] at h
    | ok title =>
      cases h₂ : styler.MustStyle (jl m.Body) Rule.RuleBlack with
      | error e => simp [fedRows, feedLoop, h₁, h₂] at h
      | ok body =>
        rw [fedRows_cons styler jl m rest title body h₁ h₂] at h
        cases hr : fedRows styler jl rest with
        | error e => simp [hr, Except.map] at h
        | ok added =>
          simp only [hr, Except.map, Except.ok.injEq] at h
          simp [← h, ih added hr]

/-! ## `Find` -/

/-- The guard of line 41 holds (`Find` returns the base result) exactly when the
call is not interactive, the backend failed, or nothing was found and
`AlwaysFilter` is off. -/
theorem find_base (f : NoteFinder) (w : World) (opts : FinderOpts)
    (h : (popInteractiveFilter opts).1 = false ∨
         (f.finder (popInteractiveFilter opts).2).2 ≠ none ∨
         (f.opts.AlwaysFilter = false ∧ (f.finder (popInteractiveFilter opts).2).1 = [])) :
    f.Find w opts =
      ([Event.finderFind (popInteractiveFilter opts).2],
       Outcome.returned (f.finder (popInteractiveFilter opts).2).1
         (f.finder (popInteractiveFilter opts).2).2) := by
  unfold NoteFinder.Find
  rcases h with h | h | ⟨h₁, h₂⟩
  · simp [h]
  · have : (f.finder (popInteractiveFilter opts).2).2.isSome = true := by
      cases hh : (f.finder (popInteractiveFilter opts).2).2 with
      | none => exact absurd hh h
      | some e => rfl
    simp [this]
  · simp [h₁, h₂]

/-- Past the guard of line 41, with the executable resolved and the session
opened, `Find` feeds the rows, reads the selection and reconciles it. -/
theorem find_interactive (f : NoteFinder) (w : World) (opts : FinderOpts) (zkBin : String)
    (hint : (popInteractiveFilter opts).1 = true)
    (herr : (f.finder (popInteractiveFilter opts).2).2 = none)
    (hgo : f.opts.AlwaysFilter = true ∨ (f.finder (popInteractiveFilter opts).2).1 ≠ [])
    (hbin : w.Executable = .ok zkBin)
    (hnew : w.New (fzfOpts f.opts.NewNoteDir zkBin) = none) :
    (f.Find w opts).2 =
      match fedRows f.styler w.JoinLines (f.finder (popInteractiveFilter opts).2).1 with
      | .error e => Outcome.panicked (Panic.styleFailed e)
      | .ok rows =>
        match w.Selection (fzfOpts f.opts.NewNoteDir zkBin) rows with
        | .error e => Outcome.returned [] (some e)
        | .ok selection =>
          match reconcileLoop (f.finder (popInteractiveFilter opts).2).1 selection [] with
          | .error p => Outcome.panicked p
          | .ok result => Outcome.returned result none := by
  have hguard : (f.opts.AlwaysFilter = false ∧
      (f.finder (popInteractiveFilter opts).2).1 = []) ↔ False := by
    constructor
    · rintro ⟨h₁, h₂⟩
      rcases hgo with h | h
      · simp [h₁] at h
      · exact h h₂
    · exact False.elim
  unfold NoteFinder.Find
  simp only [hint, herr, hbin, hnew, Bool.not_true, Option.isSome_none, Bool.false_or,
    Bool.and_eq_true, Bool.not_eq_true', beq_iff_eq, List.length_eq_zero, hguard, if_false]
  have hrows := feedLoop_rows f.styler w.JoinLines (f.finder (popInteractiveFilter opts).2).1
    ([Event.finderFind (popInteractiveFilter opts).2] ++ [Event.osExecutable] ++
      [Event.fzfNew (fzfOpts f.opts.NewNoteDir zkBin)]) []
  rcases hfl : feedLoop f.styler w.JoinLines (f.finder (popInteractiveFilter opts).2).1
    ([Event.finderFind (popInteractiveFilter opts).2] ++ [Event.osExecutable] ++
      [Event.fzfNew (fzfOpts f.opts.NewNoteDir zkBin)]) [] with ⟨t4, r⟩
  rw [hfl] at hrows
  simp only at hrows
  cases hfr : fedRows f.styler w.JoinLines (f.finder (popInteractiveFilter opts).2).1 with
  | error e =>
    rw [hfr] at hrows
    simp only [Except.map] at hrows
    subst hrows
    rfl
  | ok rows =>
    rw [hfr] at hrows
    simp only [Except.map, List.nil_append] at hrows
    subst hrows
    simp only []
    cases w.Selection (fzfOpts f.opts.NewNoteDir zkBin) rows with
    | error e => rfl
    | ok selection =>
      simp only []
      cases reconcileLoop (f.finder (popInteractiveFilter opts).2).1 selection [] <;> rfl

/-- The first call of `Find` is the backend query with the residual options, and
it is the only backend query. -/
theorem find_events (f : NoteFinder) (w : World) (opts : FinderOpts) :
    ∃ extra, (f.Find w opts).1 = Event.finderFind (popInteractiveFilter opts).2 :: extra ∧
      ∀ e ∈ extra, ∀ o, e ≠ Event.finderFind o := by
  unfold NoteFinder.Find
  simp only []
  split
  · exact ⟨[], rfl, by simp⟩
  · split
    · exact ⟨[Event.osExecutable], rfl, by simp⟩
    · rename_i zkBin _
      split
      · exact ⟨[Event.osExecutable, Event.fzfNew (fzfOpts f.opts.NewNoteDir zkBin)], rfl,
          by simp⟩
      · obtain ⟨extra, hx, hno⟩ := feedLoop_events f.styler w.JoinLines
          (f.finder (popInteractiveFilter opts).2).1
          ([Event.finderFind (popInteractiveFilter opts).2] ++ [Event.osExecutable] ++
            [Event.fzfNew (fzfOpts f.opts.NewNoteDir zkBin)]) []
        have hpre : ∀ e ∈ [Event.osExecutable,
            Event.fzfNew (fzfOpts f.opts.NewNoteDir zkBin)] ++ extra,
            ∀ o, e ≠ Event.finderFind o := by
          intro e he o
          rcases List.mem_append.1 he with h | h
          · simp at h
            rcases h with h | h <;> simp [h]
          · exact hno e h o
        have hsel : ∀ e ∈ ([Event.osExecutable,
            Event.fzfNew (fzfOpts f.opts.NewNoteDir zkBin)] ++ extra) ++ [Event.fzfSelection],
            ∀ o, e ≠ Event.finderFind o := by
          intro e he o
          rcases List.mem_append.1 he with h | h
          · exact hpre e h o
          · simp at h
            simp [h]
        split
        · rename_i t4 e heq
          rw [heq] at hx
          exact ⟨_, by simpa using hx, hpre⟩
        · rename_i t4 rows heq
          rw [heq] at hx
          simp only at hx
          split
          · exact ⟨_, by rw [hx]; simp, hsel⟩
          · split
            · exact ⟨_, by rw [hx]; simp, hsel⟩
            · exact ⟨_, by rw [hx]; simp, hsel⟩

/-- Past the guard of line 41 and with the executable resolved, the calls of
`Find` start with the backend query, `os.Executable` and `New`. -/
theorem find_events_interactive (f : NoteFinder) (w : World) (opts : FinderOpts)
    (zkBin : String)
    (hint : (popInteractiveFilter opts).1 = true)
    (herr : (f.finder (popInteractiveFilter opts).2).2 = none)
    (hgo : f.opts.AlwaysFilter = true ∨ (f.finder (popInteractiveFilter opts).2).1 ≠ [])
    (hbin : w.Executable = .ok zkBin) :
    ∃ rest, (f.Find w opts).1 =
      [Event.finderFind (popInteractiveFilter opts).2, Event.osExecutable,
       Event.fzfNew (fzfOpts f.opts.NewNoteDir zkBin)] ++ rest := by
  have hguard : (f.opts.AlwaysFilter = false ∧
      (f.finder (popInteractiveFilter opts).2).1 = []) ↔ False := by
    constructor
    · rintro ⟨h₁, h₂⟩
      rcases hgo with h | h
      · simp [h₁] at h
      · exact h h₂
    · exact False.elim
  unfold NoteFinder.Find
  simp only [hint, herr, hbin, Bool.not_true, Option.isSome_none, Bool.false_or,
    Bool.and_eq_true, Bool.not_eq_true', beq_iff_eq, List.length_eq_zero, hguard, if_false]
  split
  · exact ⟨[], rfl⟩
  · obtain ⟨extra, hx, _⟩ := feedLoop_events f.styler w.JoinLines
      (f.finder (popInteractiveFilter opts).2).1
      ([Event.finderFind (popInteractiveFilter opts).2] ++ [Event.osExecutable] ++
        [Event.fzfNew (fzfOpts f.opts.NewNoteDir zkBin)]) []
    split
    · rename_i t4 e heq
      rw [heq] at hx
      exact ⟨extra, by simpa using hx⟩
    · rename_i t4 rows heq
      rw [heq] at hx
      simp only at hx
      split
      · exact ⟨extra ++ [Event.fzfSelection], by rw [hx]; simp⟩
      · split
        · exact ⟨extra ++ [Event.fzfSelection], by rw [hx]; simp⟩
        · exact ⟨extra ++ [Event.fzfSelection], by rw [hx]; simp⟩

theorem selectLoop_length_le (path : String) (ms acc : List Match)
    (hnd : (ms.map Match.Path).Nodup) :
    (selectLoop path ms acc).length ≤ acc.length + 1 := by
  rw [selectLoop_eq, filter_path_eq_find path ms hnd]
  cases ms.find? (fun m => decide (m.Path = path)) <;> simp

theorem reconcileLoop_length_le (ms : List Match) (selection : List Row)
    (acc result : List Match) (hnd : (ms.map Match.Path).Nodup)
    (h : reconcileLoop ms selection acc = .ok result) :
    result.length ≤ acc.length + selection.length := by
  induction selection generalizing acc with
  | nil =>
    simp only [reconcileLoop, Except.ok.injEq] at h
    simp [← h]
  | cons s rest ih =>
    cases s with
    | nil => simp [reconcileLoop] at h
    | cons path cols =>
      simp only [reconcileLoop] at h
      have h₁ := ih _ h
      have h₂ := selectLoop_length_le path ms acc hnd
      simp only [List.length_cons]
      omega

theorem reconcileLoop_rows (ms : List Match) (selection : List Row) (acc result : List Match)
    (h : reconcileLoop ms selection acc = .ok result) : ∀ s ∈ selection, s ≠ [] := by
  induction selection generalizing acc with
  | nil => simp
  | cons s rest ih =>
    cases s with
    | nil => simp [reconcileLoop] at h
    | cons path cols =>
      simp only [reconcileLoop] at h
      intro t ht
      rcases List.mem_cons.1 ht with h₁ | h₁
      · simp [h₁]
      · exact ih _ h t h₁

theorem reconcileLoop_empty_row (ms : List Match) (selection : List Row) (acc : List Match)
    (h : [] ∈ selection) : reconcileLoop ms selection acc = .error Panic.indexOutOfRange := by
  induction selection generalizing acc with
  | nil => simp at h
  | cons s rest ih =>
    cases s with
    | nil => rfl
    | cons path cols =>
      simp only [reconcileLoop]
      apply ih
      rcases List.mem_cons.1 h with h₁ | h₁
      · simp at h₁
      · exact h₁

theorem find_col0_eq_some (ms : List Match) (hnd : (ms.map Match.Path).Nodup)
    (m : Match) (hm : m ∈ ms) (s : Row) :
    ms.find? (fun x => s.head? = some x.Path) = some m ↔ s.head? = some m.Path := by
  constructor
  · intro h
    simpa using List.find?_some h
  · intro h
    rw [← find_path_of_mem ms hnd m hm]
    congr 1
    funext x
    simp only [h, Option.some.injEq, eq_comm]

theorem popLoop_last (before after : List Filter) (b b₀ : Bool) (acc : List Filter)
    (hafter : ∀ x ∈ after, isInteractiveFilter x = false) :
    (popLoop (before ++ Filter.InteractiveFilter b :: after) b₀ acc).1 = b := by
  rw [popLoop_append]
  simp only [popLoop]
  rw [popLoop_plain after b _ hafter]

theorem feedLoop_events_kind (styler : Styler) (jl : List String → String) (ms : List Match)
    (events : List Event) (rows : List Row) :
    ∃ extra, (feedLoop styler jl ms events rows).1 = events ++ extra ∧
      ∀ e ∈ extra, (∃ t r, e = Event.mustStyle t r) ∨ ∃ row, e = Event.fzfAdd row := by
  induction ms generalizing events rows with
  | nil => exact ⟨[], by simp [feedLoop]⟩
  | cons m rest ih =>
    unfold feedLoop
    cases h₁ : styler.MustStyle m.Title Rule.RuleYellow with
    | error e => exact ⟨_, rfl, by simp⟩
    | ok title =>
      cases h₂ : styler.MustStyle (jl m.Body) Rule.RuleBlack with
      | error e => exact ⟨_, rfl, by simp⟩
      | ok body =>
        obtain ⟨extra, hx, hk⟩ := ih
          (events ++ [Event.mustStyle m.Title Rule.RuleYellow,
                      Event.mustStyle (jl m.Body) Rule.RuleBlack,
                      Event.fzfAdd [m.Path, title, body]])
          (rows ++ [[m.Path, title, body]])
        refine ⟨[Event.mustStyle m.Title Rule.RuleYellow,
                 Event.mustStyle (jl m.Body) Rule.RuleBlack,
                 Event.fzfAdd [m.Path, title, body]] ++ extra, ?_, ?_⟩
        · simp only [hx, List.append_assoc]
        · intro e he
          rcases List.mem_append.1 he with h | h
          · simp at h
            rcases h with h | h | h <;> simp [h]
          · exact hk e h

/-- Past the guard of line 41, a failing `os.Executable` ends `Find` with the empty
result and that error, before `New`. -/
theorem find_no_executable (f : NoteFinder) (w : World) (opts : FinderOpts) (e : Error)
    (hint : (popInteractiveFilter opts).1 = true)
    (herr : (f.finder (popInteractiveFilter opts).2).2 = none)
    (hgo : f.opts.AlwaysFilter = true ∨ (f.finder (popInteractiveFilter opts).2).1 ≠ [])
    (hbin : w.Executable = .error e) :
    f.Find w opts =
      ([Event.finderFind (popInteractiveFilter opts).2, Event.osExecutable],
       Outcome.returned [] (some e)) := by
  have hguard : (f.opts.AlwaysFilter = false ∧
      (f.finder (popInteractiveFilter opts).2).1 = []) ↔ False := by
    constructor
    · rintro ⟨h₁, h₂⟩
      rcases hgo with h | h
      · simp [h₁] at h
      · exact h h₂
    · exact False.elim
  unfold NoteFinder.Find
  simp only [hint, herr, hbin, Bool.not_true, Option.isSome_none, Bool.false_or,
    Bool.and_eq_true, Bool.not_eq_true', beq_iff_eq, List.length_eq_zero, hguard, if_false]
  rfl

/-- Past the guard of line 41 and with the executable resolved, a failing `New`
ends `Find` with the empty result and that error, before any row is fed. -/
theorem find_no_session (f : NoteFinder) (w : World) (opts : FinderOpts) (zkBin : String)
    (e : Error)
    (hint : (popInteractiveFilter opts).1 = true)
    (herr : (f.finder (popInteractiveFilter opts).2).2 = none)
    (hgo : f.opts.AlwaysFilter = true ∨ (f.finder (popInteractiveFilter opts).2).1 ≠ [])
    (hbin : w.Executable = .ok zkBin)
    (hnew : w.New (fzfOpts f.opts.NewNoteDir zkBin) = some e) :
    f.Find w opts =
      ([Event.finderFind (popInteractiveFilter opts).2, Event.osExecutable,
        Event.fzfNew (fzfOpts f.opts.NewNoteDir zkBin)],
       Outcome.returned [] (some e)) := by
  have hguard : (f.opts.AlwaysFilter = false ∧
      (f.finder (popInteractiveFilter opts).2).1 = []) ↔ False := by
    constructor
    · rintro ⟨h₁, h₂⟩
      rcases hgo with h | h
      · simp [h₁] at h
      · exact h h₂
    · exact False.elim
  unfold NoteFinder.Find
  simp only [hint, herr, hbin, hnew, Bool.not_true, Option.isSome_none, Bool.false_or,
    Bool.and_eq_true, Bool.not_eq_true', beq_iff_eq, List.length_eq_zero, hguard, if_false]
  rfl

/-- Every `New` call of `Find` is made with the options built from `NewNoteDir`
and the resolved executable path. -/
theorem find_new_event (f : NoteFinder) (w : World) (opts : FinderOpts) (o : Opts)
    (h : Event.fzfNew o ∈ (f.Find w opts).1) :
    ∃ zkBin, w.Executable = .ok zkBin ∧ o = fzfOpts f.opts.NewNoteDir zkBin := by
  unfold NoteFinder.Find at h
  simp only [] at h
  split at h
  · simp at h
  · split at h
    · simp at h
    · rename_i zkBin hbin
      refine ⟨zkBin, hbin, ?_⟩
      have hfix : ∀ extra : List Event,
          (∀ e ∈ extra, (∃ t r, e = Event.mustStyle t r) ∨ (∃ row, e = Event.fzfAdd row) ∨
            e = Event.fzfSelection) →
          Event.fzfNew o ∈ ([Event.finderFind (popInteractiveFilter opts).2] ++
            [Event.osExecutable] ++ [Event.fzfNew (fzfOpts f.opts.NewNoteDir zkBin)]) ++ extra →
          o = fzfOpts f.opts.NewNoteDir zkBin := by
        intro extra hk hm
        rcases List.mem_append.1 hm with h₁ | h₁
        · simpa using h₁
        · rcases hk _ h₁ with ⟨t, r, h₂⟩ | ⟨row, h₂⟩ | h₂ <;> simp at h₂
      split at h
      · exact hfix [] (by simp) (by simpa using h)
      · obtain ⟨extra, hx, hk⟩ := feedLoop_events_kind f.styler w.JoinLines
          (f.finder (popInteractiveFilter opts).2).1
          ([Event.finderFind (popInteractiveFilter opts).2] ++ [Event.osExecutable] ++
            [Event.fzfNew (fzfOpts f.opts.NewNoteDir zkBin)]) []
        have hk₁ : ∀ e ∈ extra, (∃ t r, e = Event.mustStyle t r) ∨
            (∃ row, e = Event.fzfAdd row) ∨ e = Event.fzfSelection := by
          intro e he
          rcases hk e he with h₁ | h₁
          · exact Or.inl h₁
          · exact Or.inr (Or.inl h₁)
        have hk₂ : ∀ e ∈ extra ++ [Event.fzfSelection], (∃ t r, e = Event.mustStyle t r) ∨
            (∃ row, e = Event.fzfAdd row) ∨ e = Event.fzfSelection := by
          intro e he
          rcases List.mem_append.1 he with h₁ | h₁
          · exact hk₁ e h₁
          · exact Or.inr (Or.inr (by simpa using h₁))
        split at h
        · rename_i t4 e heq
          rw [heq] at hx
          simp only at hx h
          rw [hx] at h
          exact hfix extra hk₁ h
        · rename_i t4 rows heq
          rw [heq] at hx
          simp only at hx
          have hsel : Event.fzfNew o ∈ t4 ++ [Event.fzfSelection] := by
            split at h
            · exact h
            · split at h <;> exact h
          rw [hx, List.append_assoc] at hsel
          exact hfix _ hk₂ hsel

/-- Past the guard of line 41, with the executable resolved and the session
opened, the calls of `Find` are those of the feeding loop, followed by
`Selection` when every row was styled. -/
theorem find_interactive_events (f : NoteFinder) (w : World) (opts : FinderOpts)
    (zkBin : String)
    (hint : (popInteractiveFilter opts).1 = true)
    (herr : (f.finder (popInteractiveFilter opts).2).2 = none)
    (hgo : f.opts.AlwaysFilter = true ∨ (f.finder (popInteractiveFilter opts).2).1 ≠ [])
    (hbin : w.Executable = .ok zkBin)
    (hnew : w.New (fzfOpts f.opts.NewNoteDir zkBin) = none) :
    (f.Find w opts).1 =
      match fedRows f.styler w.JoinLines (f.finder (popInteractiveFilter opts).2).1 with
      | .error _ =>
        (feedLoop f.styler w.JoinLines (f.finder (popInteractiveFilter opts).2).1
          ([Event.finderFind (popInteractiveFilter opts).2] ++ [Event.osExecutable] ++
            [Event.fzfNew (fzfOpts f.opts.NewNoteDir zkBin)]) []).1
      | .ok _ =>
        (feedLoop f.styler w.JoinLines (f.finder (popInteractiveFilter opts).2).1
          ([Event.finderFind (popInteractiveFilter opts).2] ++ [Event.osExecutable] ++
            [Event.fzfNew (fzfOpts f.opts.NewNoteDir zkBin)]) []).1 ++
          [Event.fzfSelection] := by
  have hguard : (f.opts.AlwaysFilter = false ∧
      (f.finder (popInteractiveFilter opts).2).1 = []) ↔ False := by
    constructor
    · rintro ⟨h₁, h₂⟩
      rcases hgo with h | h
      · simp [h₁] at h
      · exact h h₂
    · exact False.elim
  unfold NoteFinder.Find
  simp only [hint, herr, hbin, hnew, Bool.not_true, Option.isSome_none, Bool.false_or,
    Bool.and_eq_true, Bool.not_eq_true', beq_iff_eq, List.length_eq_zero, hguard, if_false]
  have hrows := feedLoop_rows f.styler w.JoinLines (f.finder (popInteractiveFilter opts).2).1
    ([Event.finderFind (popInteractiveFilter opts).2] ++ [Event.osExecutable] ++
      [Event.fzfNew (fzfOpts f.opts.NewNoteDir zkBin)]) []
  rcases hfl : feedLoop f.styler w.JoinLines (f.finder (popInteractiveFilter opts).2).1
    ([Event.finderFind (popInteractiveFilter opts).2] ++ [Event.osExecutable] ++
      [Event.fzfNew (fzfOpts f.opts.NewNoteDir zkBin)]) [] with ⟨t4, r⟩
  rw [hfl] at hrows
  simp only at hrows
  cases hfr : fedRows f.styler w.JoinLines (f.finder (popInteractiveFilter opts).2).1 with
  | error e =>
    rw [hfr] at hrows
    simp only [Except.map] at hrows
    subst hrows
    rfl
  | ok rows =>
    rw [hfr] at hrows
    simp only [Except.map, List.nil_append] at hrows
    subst hrows
    simp only []
    cases w.Selection (fzfOpts f.opts.NewNoteDir zkBin) rows with
    | error e => rfl
    | ok selection =>
      simp only []
      cases reconcileLoop (f.finder (popInteractiveFilter opts).2).1 selection [] <;> rfl

theorem fedRows_error_of_fail (styler : Styler) (jl : List String → String) (ms : List Match)
    (hfail : ∃ m ∈ ms, (∃ e, styler.MustStyle m.Title Rule.RuleYellow = .error e) ∨
      ∃ e, styler.MustStyle (jl m.Body) Rule.RuleBlack = .error e) :
    ∃ e, fedRows styler jl ms = .error e ∧
      ∃ m ∈ ms, styler.MustStyle m.Title Rule.RuleYellow = .error e ∨
        styler.MustStyle (jl m.Body) Rule.RuleBlack = .error e := by
  induction ms with
  | nil =>
    obtain ⟨m, hm, _⟩ := hfail
    simp at hm
  | cons m rest ih =>
    cases h₁ : styler.MustStyle m.Title Rule.RuleYellow with
    | error e =>
      exact ⟨e, by simp [fedRows, feedLoop, h₁], m, List.mem_cons_self _ _, Or.inl h₁⟩
    | ok title =>
      cases h₂ : styler.MustStyle (jl m.Body) Rule.RuleBlack with
      | error e =>
        exact ⟨e, by simp [fedRows, feedLoop, h₁, h₂], m, List.mem_cons_self _ _, Or.inr h₂⟩
      | ok body =>
        have hrest : ∃ x ∈ rest, (∃ e, styler.MustStyle x.Title Rule.RuleYellow = .error e) ∨
            ∃ e, styler.MustStyle (jl x.Body) Rule.RuleBlack = .error e := by
          obtain ⟨x, hx, hf⟩ := hfail
          rcases List.mem_cons.1 hx with hxm | hxr
          · subst hxm
            rcases hf with ⟨e, he⟩ | ⟨e, he⟩
            · rw [h₁] at he; cases he
            · rw [h₂] at he; cases he
          · exact ⟨x, hxr, hf⟩
        obtain ⟨e, he, x, hx, hxe⟩ := ih hrest
        refine ⟨e, ?_, x, List.mem_cons_of_mem _ hx, hxe⟩
        rw [fedRows_cons styler jl m rest title body h₁ h₂, he]
        rfl

theorem feedLoop_added (styler : Styler) (jl : List String → String) (ms : List Match)
    (events : List Event) (rows fed : List Row)
    (h : (feedLoop styler jl ms events rows).2 = .ok fed) :
    ∃ added, fed = rows ++ added ∧
      addedRows (feedLoop styler jl ms events rows).1 = addedRows events ++ added ∧
      List.Forall₂ (fun m row => ∃ t b,
        styler.MustStyle m.Title Rule.RuleYellow = .ok t ∧
        styler.MustStyle (jl m.Body) Rule.RuleBlack = .ok b ∧ row = [m.Path, t, b]) ms added := by
  induction ms generalizing events rows with
  | nil =>
    simp only [feedLoop, Except.ok.injEq] at h
    exact ⟨[], by simp [h], by simp [feedLoop], List.Forall₂.nil⟩
  | cons m rest ih =>
    unfold feedLoop at h ⊢
    cases h₁ : styler.MustStyle m.Title Rule.RuleYellow with
    | error e => simp [h₁] at h
    | ok title =>
      cases h₂ : styler.MustStyle (jl m.Body) Rule.RuleBlack with
      | error e => simp [h₁, h₂] at h
      | ok body =>
        simp only [h₁, h₂] at h ⊢
        obtain ⟨added, hfed, hadd, hall⟩ := ih _ _ h
        refine ⟨[m.Path, title, body] :: added, ?_, ?_, ?_⟩
        · simp [hfed]
        · rw [hadd]
          simp [addedRows, List.filterMap_append]
        · exact List.Forall₂.cons ⟨title, body, h₁, h₂, rfl⟩ hall

/-- When some styling fails, the feeding loop ends at the first base match with a
failing `MustStyle` call, with the error of the first failing call on that match:
the title's, or the body's when the title was styled. -/
theorem fedRows_first_fail (styler : Styler) (jl : List String → String) (ms : List Match)
    (hfail : ∃ m ∈ ms, (∃ e, styler.MustStyle m.Title Rule.RuleYellow = .error e) ∨
      ∃ e, styler.MustStyle (jl m.Body) Rule.RuleBlack = .error e) :
    ∃ e pre m post, ms = pre ++ m :: post ∧
      (∀ x ∈ pre, (∃ t, styler.MustStyle x.Title Rule.RuleYellow = .ok t) ∧
        ∃ b, styler.MustStyle (jl x.Body) Rule.RuleBlack = .ok b) ∧
      (styler.MustStyle m.Title Rule.RuleYellow = .error e ∨
        ((∃ t, styler.MustStyle m.Title Rule.RuleYellow = .ok t) ∧
          styler.MustStyle (jl m.Body) Rule.RuleBlack = .error e)) ∧
      fedRows styler jl ms = .error e := by
  induction ms with
  | nil =>
    obtain ⟨m, hm, _⟩ := hfail
    simp at hm
  | cons m rest ih =>
    cases h₁ : styler.MustStyle m.Title Rule.RuleYellow with
    | error e =>
      exact ⟨e, [], m, rest, rfl, by simp, Or.inl h₁, by simp [fedRows, feedLoop, h₁]⟩
    | ok title =>
      cases h₂ : styler.MustStyle (jl m.Body) Rule.RuleBlack with
      | error e =>
        exact ⟨e, [], m, rest, rfl, by simp, Or.inr ⟨⟨title, h₁⟩, h₂⟩,
          by simp [fedRows, feedLoop, h₁, h₂]⟩
      | ok body =>
        have hrest : ∃ x ∈ rest, (∃ e, styler.MustStyle x.Title Rule.RuleYellow = .error e) ∨
            ∃ e, styler.MustStyle (jl x.Body) Rule.RuleBlack = .error e := by
          obtain ⟨x, hx, hf⟩ := hfail
          rcases List.mem_cons.1 hx with hxm | hxr
          · subst hxm
            rcases hf with ⟨e, he⟩ | ⟨e, he⟩
            · rw [h₁] at he; cases he
            · rw [h₂] at he; cases he
          · exact ⟨x, hxr, hf⟩
        obtain ⟨e, pre, x, post, hsplit, hpre, hx, hfed⟩ := ih hrest
        refine ⟨e, m :: pre, x, post, by rw [hsplit]; rfl, ?_, hx, ?_⟩
        · intro y hy
          rcases List.mem_cons.1 hy with hym | hyp
          · subst hym
            exact ⟨⟨title, h₁⟩, ⟨body, h₂⟩⟩
          · exact hpre y hyp
        · rw [fedRows_cons styler jl m rest title body h₁ h₂, hfed]
          rfl

/-- When the feeding loop ends with a style error, the last call made is the
`MustStyle` call that failed with it. -/
theorem feedLoop_last_event (styler : Styler) (jl : List String → String) (ms : List Match)
    (events : List Event) (rows : List Row) (e : Error)
    (h : (feedLoop styler jl ms events rows).2 = .error e) :
    ∃ text rule, (feedLoop styler jl ms events rows).1.getLast? =
        some (Event.mustStyle text rule) ∧
      styler.MustStyle text rule = .error e := by
  induction ms generalizing events rows with
  | nil => simp [feedLoop] at h
  | cons m rest ih =>
    unfold feedLoop at h ⊢
    cases h₁ : styler.MustStyle m.Title Rule.RuleYellow with
    | error e₁ =>
      simp only [h₁, Except.error.injEq] at h
      subst h
      exact ⟨m.Title, Rule.RuleYellow, List.getLast?_concat _, h₁⟩
    | ok title =>
      cases h₂ : styler.MustStyle (jl m.Body) Rule.RuleBlack with
      | error e₂ =>
        simp only [h₁, h₂, Except.error.injEq] at h
        subst h
        refine ⟨jl m.Body, Rule.RuleBlack, ?_, h₂⟩
        have hcat : events ++ [Event.mustStyle m.Title Rule.RuleYellow,
            Event.mustStyle (jl m.Body) Rule.RuleBlack] =
            (events ++ [Event.mustStyle m.Title Rule.RuleYellow]) ++
              [Event.mustStyle (jl m.Body) Rule.RuleBlack] := by simp
        simp only []
        rw [hcat, List.getLast?_concat]
      | ok body =>
        simp only [h₁, h₂] at h ⊢
        exact ih _ _ h

/-! ## The claims -/

/-- C1: for base matches with pairwise distinct paths and a selection whose rows all
have a column 0, `Find` on the interactive success path returns, in selection
order, the base match whose `Path` is column 0 of each row; a row naming no base
path contributes nothing and the error is `nil`. -/
theorem find_returns_selected_matches (f : NoteFinder) (w : World) (opts : FinderOpts)
    (ms : List Match) (zkBin : String) (rows selection : List Row)
    (hint : (popInteractiveFilter opts).1 = true)
    (hbase : f.finder (popInteractiveFilter opts).2 = (ms, none))
    (hgo : f.opts.AlwaysFilter = true ∨ ms ≠ [])
    (hbin : w.Executable = .ok zkBin)
    (hnew : w.New (fzfOpts f.opts.NewNoteDir zkBin) = none)
    (hfed : fedRows f.styler w.JoinLines ms = .ok rows)
    (hsel : w.Selection (fzfOpts f.opts.NewNoteDir zkBin) rows = .ok selection)
    (hnd : (ms.map Match.Path).Nodup)
    (hrows : ∀ s ∈ selection, s ≠ []) :
    (f.Find w opts).2 =
      Outcome.returned
        (selection.filterMap (fun s => ms.find? (fun m => s.head? = some m.Path))) none := by
  have h := find_interactive f w opts zkBin hint (by rw [hbase]) (by rw [hbase]; exact hgo)
    hbin hnew
  rw [h, hbase]
  simp only [hfed, hsel, reconcileLoop_nodup ms selection [] hnd hrows, List.nil_append]

/-- C1 at the notes `a.md`, `b.md`, `c.md` with the rows `c.md` then `a.md`
selected: the result is `[c.md, a.md]`. -/
theorem find_returns_selected_matches_witness :
    ((exFinder false ([exA, exB, exC], none)).Find
        (exWorld (fun _ => .ok [["c.md", "Gamma", "only"], ["a.md", "Alpha", "first second"]]))
        exOpts).2 = Outcome.returned [exC, exA] none :=
  find_returns_selected_matches (exFinder false ([exA, exB, exC], none))
    (exWorld (fun _ => .ok [["c.md", "Gamma", "only"], ["a.md", "Alpha", "first second"]]))
    exOpts [exA, exB, exC] "/usr/local/bin/zk"
    [["a.md", "Alpha", "first second"], ["b.md", "Beta", ""], ["c.md", "Gamma", "only"]]
    [["c.md", "Gamma", "only"], ["a.md", "Alpha", "first second"]]
    (by decide) rfl (Or.inr (by decide)) rfl rfl rfl rfl (by decide) (by decide)

/-- C2: for matches with pairwise distinct paths and every styler, whenever the rows
`Find` feeds exist, reconciling all of them in reverse order gives the matches in
reverse order; and the rows do exist when the styler returns for the title and
the joined body of each match. -/
theorem encode_reconcile_reverse (styler : Styler) (joinLines : List String → String)
    (ms : List Match)
    (hnd : (ms.map Match.Path).Nodup) :
    (∀ rows, fedRows styler joinLines ms = .ok rows →
      reconcileLoop ms rows.reverse [] = .ok ms.reverse) ∧
    ((∀ m ∈ ms, (∃ t, styler.MustStyle m.Title Rule.RuleYellow = .ok t) ∧
        ∃ b, styler.MustStyle (joinLines m.Body) Rule.RuleBlack = .ok b) →
      ∃ rows, fedRows styler joinLines ms = .ok rows ∧
        reconcileLoop ms rows.reverse [] = .ok ms.reverse) := by
  have hround : ∀ rows, fedRows styler joinLines ms = .ok rows →
      reconcileLoop ms rows.reverse [] = .ok ms.reverse := by
    intro rows hr
    apply reconcileLoop_members ms ms.reverse rows.reverse hnd
    · intro m hm
      exact List.mem_reverse.1 hm
    · rw [List.map_reverse, List.map_reverse, fedRows_cols styler joinLines ms rows hr]
  refine ⟨hround, ?_⟩
  intro hsty
  obtain ⟨rows, hr, _⟩ := fedRows_ok styler joinLines ms hsty
  exact ⟨rows, hr, hround rows hr⟩

/-- C2 at the notes `a.md`, `b.md`, `c.md` and the styler that leaves text as
it is. -/
theorem encode_reconcile_reverse_witness :
    ∃ rows, fedRows exStyler (fun lines => " ".intercalate lines) [exA, exB, exC] = .ok rows ∧
      reconcileLoop [exA, exB, exC] rows.reverse [] = .ok [exC, exB, exA] :=
  (encode_reconcile_reverse exStyler (fun lines => " ".intercalate lines) [exA, exB, exC]
    (by decide)).2 (by
      intro m _
      exact ⟨⟨_, rfl⟩, ⟨_, rfl⟩⟩)

/-- C3: when the filter list holds exactly one `InteractiveFilter`, of value
`true`, `popInteractiveFilter` returns `true` and the options with that entry
removed, the filters before and after it kept in order. -/
theorem pop_single_interactive (opts : FinderOpts) (before after : List Filter)
    (hsplit : opts.Filters = before ++ Filter.InteractiveFilter true :: after)
    (hbefore : ∀ x ∈ before, isInteractiveFilter x = false)
    (hafter : ∀ x ∈ after, isInteractiveFilter x = false) :
    popInteractiveFilter opts = (true, { opts with Filters := before ++ after }) := by
  unfold popInteractiveFilter
  rw [hsplit, popLoop_append, popLoop_plain before false [] hbefore]
  simp only [popLoop, List.nil_append]
  rw [popLoop_plain after true before hafter]

/-- C3 at `[tag:book, InteractiveFilter(true), limit:5]`. -/
theorem pop_single_interactive_witness :
    popInteractiveFilter exOpts =
      (true, { exOpts with Filters := [Filter.other "tag:book"] ++ [Filter.other "limit:5"] }) :=
  pop_single_interactive exOpts [Filter.other "tag:book"] [Filter.other "limit:5"] rfl
    (by decide) (by decide)

/-- C4: when the filter list holds no `InteractiveFilter`, `popInteractiveFilter`
returns `false` and the options unchanged, the empty list included. -/
theorem pop_no_interactive (opts : FinderOpts)
    (hnone : ∀ x ∈ opts.Filters, isInteractiveFilter x = false) :
    popInteractiveFilter opts = (false, opts) := by
  unfold popInteractiveFilter
  rw [popLoop_plain opts.Filters false [] hnone]
  simp

/-- C4 at `[tag:book, limit:5]`. -/
theorem pop_no_interactive_witness : popInteractiveFilter exOptsPlain = (false, exOptsPlain) :=
  pop_no_interactive exOptsPlain (by decide)

/-- C5: the backend is queried first and once, with the input options whose filter
list is the input list without its `InteractiveFilter` entries (all of them,
whatever their values), the other filters in their original order; no
`InteractiveFilter` is in the options the backend receives. -/
theorem find_backend_opts (f : NoteFinder) (w : World) (opts : FinderOpts) :
    (∃ extra, (f.Find w opts).1 =
      Event.finderFind
        { opts with Filters := opts.Filters.filter (fun x => !isInteractiveFilter x) }
        :: extra) ∧
    (∀ o, Event.finderFind o ∈ (f.Find w opts).1 →
      o = { opts with Filters := opts.Filters.filter (fun x => !isInteractiveFilter x) }) ∧
    (∀ o, Event.finderFind o ∈ (f.Find w opts).1 →
      ∀ b, Filter.InteractiveFilter b ∉ o.Filters) := by
  obtain ⟨extra, hx, hno⟩ := find_events f w opts
  rw [popInteractiveFilter_snd] at hx
  have honly : ∀ o, Event.finderFind o ∈ (f.Find w opts).1 →
      o = { opts with Filters := opts.Filters.filter (fun x => !isInteractiveFilter x) } := by
    intro o ho
    rw [hx] at ho
    rcases List.mem_cons.1 ho with h | h
    · exact Event.finderFind.inj h
    · exact absurd rfl (hno _ h o)
  refine ⟨⟨extra, hx⟩, honly, ?_⟩
  intro o ho b hb
  rw [honly o ho] at hb
  simp [isInteractiveFilter] at hb

/-- C6: with `AlwaysFilter = false` and a backend that finds nothing, `Find`
returns the empty base result (with the backend's error value) and its only call
is the backend query: no executable resolution, no session, no styling. -/
theorem find_empty_base (f : NoteFinder) (w : World) (opts : FinderOpts)
    (halways : f.opts.AlwaysFilter = false)
    (hzero : (f.finder (popInteractiveFilter opts).2).1 = []) :
    f.Find w opts =
      ([Event.finderFind (popInteractiveFilter opts).2],
       Outcome.returned [] (f.finder (popInteractiveFilter opts).2).2) ∧
    opensPicker (f.Find w opts).1 = false := by
  have h := find_base f w opts (Or.inr (Or.inr ⟨halways, hzero⟩))
  rw [hzero] at h
  rw [h]
  exact ⟨rfl, rfl⟩

/-- C6 at interactive options, `AlwaysFilter = false` and an empty base result. -/
theorem find_empty_base_witness :
    (exFinder false ([], none)).Find (exWorld (fun rows => .ok rows)) exOpts =
      ([Event.finderFind (popInteractiveFilter exOpts).2], Outcome.returned [] none) ∧
    opensPicker ((exFinder false ([], none)).Find (exWorld (fun rows => .ok rows)) exOpts).1
      = false :=
  find_empty_base (exFinder false ([], none)) (exWorld (fun rows => .ok rows)) exOpts rfl rfl

/-- C7 as stated fails: with `AlwaysFilter = true` and `isInteractive = true` the
picker is not invoked when the backend returns an error, nor when the executable
path cannot be resolved. -/
theorem always_filter_picker_not_invoked :
    ((exFinder true ([], some { msg := "index unavailable" })).opts.AlwaysFilter = true ∧
      (popInteractiveFilter exOpts).1 = true ∧
      opensPicker ((exFinder true ([], some { msg := "index unavailable" })).Find
        (exWorld (fun rows => .ok rows)) exOpts).1 = false) ∧
    ((exFinder true ([], none)).opts.AlwaysFilter = true ∧
      (popInteractiveFilter exOpts).1 = true ∧
      opensPicker ((exFinder true ([], none)).Find exWorldNoBin exOpts).1 = false) := by
  decide

/-- C7, amended: with `AlwaysFilter = true` and `isInteractive = true`, when the
backend returns no error and the executable path resolves, `Find` invokes the
picker (it calls `New` with the session options right after resolving the
executable), whatever the base result, the empty one included. -/
theorem always_filter_opens_picker (f : NoteFinder) (w : World) (opts : FinderOpts)
    (zkBin : String)
    (halways : f.opts.AlwaysFilter = true)
    (hint : (popInteractiveFilter opts).1 = true)
    (herr : (f.finder (popInteractiveFilter opts).2).2 = none)
    (hbin : w.Executable = .ok zkBin) :
    opensPicker (f.Find w opts).1 = true ∧
    ∃ rest, (f.Find w opts).1 =
      [Event.finderFind (popInteractiveFilter opts).2, Event.osExecutable,
       Event.fzfNew (fzfOpts f.opts.NewNoteDir zkBin)] ++ rest := by
  obtain ⟨rest, hr⟩ := find_events_interactive f w opts zkBin hint herr (Or.inl halways) hbin
  refine ⟨?_, rest, hr⟩
  rw [hr]
  simp [opensPicker]

/-- C7, amended, at an empty base result. -/
theorem always_filter_opens_picker_witness :
    opensPicker ((exFinder true ([], none)).Find (exWorld (fun rows => .ok rows)) exOpts).1
      = true ∧
    ∃ rest, ((exFinder true ([], none)).Find (exWorld (fun rows => .ok rows)) exOpts).1 =
      [Event.finderFind (popInteractiveFilter exOpts).2, Event.osExecutable,
       Event.fzfNew (fzfOpts none "/usr/local/bin/zk")] ++ rest :=
  always_filter_opens_picker (exFinder true ([], none)) (exWorld (fun rows => .ok rows)) exOpts
    "/usr/local/bin/zk" rfl (by decide) rfl rfl

/-- C8: when the extracted `isInteractive` is false, `Find` returns the pair the
backend returned for the residual options, and its only call is the backend
query, whatever `AlwaysFilter` is. -/
theorem find_not_interactive (f : NoteFinder) (w : World) (opts : FinderOpts)
    (hint : (popInteractiveFilter opts).1 = false) :
    f.Find w opts =
      ([Event.finderFind (popInteractiveFilter opts).2],
       Outcome.returned (f.finder (popInteractiveFilter opts).2).1
         (f.finder (popInteractiveFilter opts).2).2) ∧
    opensPicker (f.Find w opts).1 = false := by
  have h := find_base f w opts (Or.inl hint)
  rw [h]
  exact ⟨rfl, rfl⟩

/-- C8 at options without an `InteractiveFilter`, with `AlwaysFilter = true`. -/
theorem find_not_interactive_witness :
    (exFinder true ([exB, exA], none)).Find (exWorld (fun rows => .ok rows)) exOptsPlain =
      ([Event.finderFind (popInteractiveFilter exOptsPlain).2],
       Outcome.returned [exB, exA] none) ∧
    opensPicker ((exFinder true ([exB, exA], none)).Find (exWorld (fun rows => .ok rows))
      exOptsPlain).1 = false :=
  find_not_interactive (exFinder true ([exB, exA], none)) (exWorld (fun rows => .ok rows))
    exOptsPlain (by decide)

/-- C9: when the backend returns an error `e`, `Find` returns `e` with the matches
the backend returned, and its only call is the backend query, whatever
`isInteractive` and `AlwaysFilter` are. -/
theorem find_backend_error (f : NoteFinder) (w : World) (opts : FinderOpts) (e : Error)
    (herr : (f.finder (popInteractiveFilter opts).2).2 = some e) :
    f.Find w opts =
      ([Event.finderFind (popInteractiveFilter opts).2],
       Outcome.returned (f.finder (popInteractiveFilter opts).2).1 (some e)) ∧
    opensPicker (f.Find w opts).1 = false := by
  have h := find_base f w opts (Or.inr (Or.inl (by rw [herr]; simp)))
  rw [herr] at h
  rw [h]
  exact ⟨rfl, rfl⟩

/-- C9 at interactive options, `AlwaysFilter = true` and a backend that fails
with a partial result. -/
theorem find_backend_error_witness :
    (exFinder true ([exA], some { msg := "index unavailable" })).Find
        (exWorld (fun rows => .ok rows)) exOpts =
      ([Event.finderFind (popInteractiveFilter exOpts).2],
       Outcome.returned [exA] (some { msg := "index unavailable" })) ∧
    opensPicker ((exFinder true ([exA], some { msg := "index unavailable" })).Find
        (exWorld (fun rows => .ok rows)) exOpts).1 = false :=
  find_backend_error (exFinder true ([exA], some { msg := "index unavailable" }))
    (exWorld (fun rows => .ok rows)) exOpts { msg := "index unavailable" } rfl

/-- C10 as stated fails: when two base matches share a path, one selection row
appends both, and `Find` returns two matches for a selection of one row. -/
theorem reconcile_two_matches_for_one_row :
    reconcileLoop [exA, exA2] [["a.md", "Alpha", "first second"]] [] = .ok [exA, exA2] ∧
    ((exFinder false ([exA, exA2], none)).Find
        (exWorld (fun _ => .ok [["a.md", "Alpha", "first second"]])) exOpts).2 =
      Outcome.returned [exA, exA2] none ∧
    ¬ ([exA, exA2].length ≤ [["a.md", "Alpha", "first second"]].length) :=
  ⟨rfl, rfl, by decide⟩

/-- C10, amended: for base matches with pairwise distinct paths, one selection row
appends at most one match, so a returned list has at most as many entries as the
selection has rows; and the loop does return when every row has a column 0. -/
theorem reconcile_length_le (ms : List Match) (selection : List Row)
    (hnd : (ms.map Match.Path).Nodup) :
    (∀ path acc, (selectLoop path ms acc).length ≤ acc.length + 1) ∧
    (∀ result, reconcileLoop ms selection [] = .ok result →
      result.length ≤ selection.length) ∧
    ((∀ s ∈ selection, s ≠ []) →
      ∃ result, reconcileLoop ms selection [] = .ok result ∧
        result.length ≤ selection.length) := by
  have hle : ∀ result, reconcileLoop ms selection [] = .ok result →
      result.length ≤ selection.length := by
    intro result h
    simpa using reconcileLoop_length_le ms selection [] result hnd h
  refine ⟨fun path acc => selectLoop_length_le path ms acc hnd, hle, ?_⟩
  intro hrows
  exact ⟨_, reconcileLoop_nodup ms selection [] hnd hrows,
    hle _ (reconcileLoop_nodup ms selection [] hnd hrows)⟩

/-- C10, amended, at the notes `a.md`, `b.md`, `c.md` and the selection `c.md`,
`z.md`, `a.md`. -/
theorem reconcile_length_le_witness :
    ∃ result, reconcileLoop [exA, exB, exC] [["c.md"], ["z.md"], ["a.md"]] [] = .ok result ∧
      result.length ≤ [["c.md"], ["z.md"], ["a.md"]].length :=
  (reconcile_length_le [exA, exB, exC] [["c.md"], ["z.md"], ["a.md"]] (by decide)).2.2
    (by decide)

/-- C11: for base matches with pairwise distinct paths the loop does not
deduplicate: a returned result is, row by row in selection order, the base match
named by column 0; each base match occurs as many times as rows name it, and the
result has as many entries as rows name a base path. The loop returns when every
row has a column 0. -/
theorem reconcile_no_dedup (ms : List Match) (selection : List Row)
    (hnd : (ms.map Match.Path).Nodup) :
    (∀ result, reconcileLoop ms selection [] = .ok result →
      result = selection.filterMap (fun s => ms.find? (fun m => s.head? = some m.Path)) ∧
      (∀ m ∈ ms, result.count m = selection.countP (fun s => s.head? = some m.Path)) ∧
      result.length =
        selection.countP (fun s => ms.any (fun m => s.head? = some m.Path))) ∧
    ((∀ s ∈ selection, s ≠ []) → ∃ result, reconcileLoop ms selection [] = .ok result) := by
  constructor
  · intro result h
    have hrows := reconcileLoop_rows ms selection [] result h
    rw [reconcileLoop_nodup ms selection [] hnd hrows, List.nil_append] at h
    have hres := (Except.ok.inj h).symm
    refine ⟨hres, ?_, ?_⟩
    · intro m hm
      rw [hres, List.count_filterMap]
      apply List.countP_congr
      intro s _
      have := find_col0_eq_some ms hnd m hm s
      simp only [beq_iff_eq, decide_eq_true_eq]
      exact this
    · rw [hres, List.length_filterMap_eq_countP]
      apply List.countP_congr
      intro s _
      rw [List.find?_isSome, List.any_eq_true]
  · intro hrows
    exact ⟨_, reconcileLoop_nodup ms selection [] hnd hrows⟩

/-- C11 at the notes `a.md`, `b.md`, `c.md` and the selection `a.md`, `c.md`,
`a.md`: the result is `[a.md, c.md, a.md]`, with `a.md` twice. -/
theorem reconcile_no_dedup_witness :
    reconcileLoop [exA, exB, exC] [["a.md"], ["c.md"], ["a.md"]] [] = .ok [exA, exC, exA] ∧
    [exA, exC, exA].count exA =
      [["a.md"], ["c.md"], ["a.md"]].countP (fun s => s.head? = some exA.Path) ∧
    [exA, exC, exA].count exA = 2 :=
  ⟨rfl,
   ((reconcile_no_dedup [exA, exB, exC] [["a.md"], ["c.md"], ["a.md"]] (by decide)).1
      [exA, exC, exA] rfl).2.1 exA (by decide),
   by decide⟩

/-- C12: when the filter list holds an `InteractiveFilter`, `popInteractiveFilter`
returns as `isInteractive` the value of the last one, whatever comes before it. -/
theorem pop_last_interactive_wins (opts : FinderOpts) (before after : List Filter) (b : Bool)
    (hsplit : opts.Filters = before ++ Filter.InteractiveFilter b :: after)
    (hafter : ∀ x ∈ after, isInteractiveFilter x = false) :
    (popInteractiveFilter opts).1 = b := by
  unfold popInteractiveFilter
  simp only [hsplit]
  exact popLoop_last before after b false [] hafter

/-- C12 at `[InteractiveFilter(true), tag:book, InteractiveFilter(false), limit:5]`:
the result is `false`. -/
theorem pop_last_interactive_wins_witness :
    (popInteractiveFilter
      { Filters := [Filter.InteractiveFilter true, Filter.other "tag:book",
                    Filter.InteractiveFilter false, Filter.other "limit:5"]
        Other := "" }).1 = false :=
  pop_last_interactive_wins
    { Filters := [Filter.InteractiveFilter true, Filter.other "tag:book",
                  Filter.InteractiveFilter false, Filter.other "limit:5"]
      Other := "" }
    [Filter.InteractiveFilter true, Filter.other "tag:book"] [Filter.other "limit:5"] false
    rfl (by decide)

/-- C13: the bindings `Find` gives to `New` are empty when `NewNoteDir` is nil;
otherwise they are the one binding with keys `Ctrl-N`, the description
"create a note with the query as title", followed by " in Name/" exactly when
`Name` is not empty, and the action that aborts and executes
`bin new Path --title` with the query placeholder, for the resolved path `bin`. -/
theorem find_bindings (f : NoteFinder) (w : World) (opts : FinderOpts) (o : Opts)
    (h : Event.fzfNew o ∈ (f.Find w opts).1) :
    ∃ zkBin, w.Executable = .ok zkBin ∧
      (f.opts.NewNoteDir = none → o.Bindings = []) ∧
      (∀ dir, f.opts.NewNoteDir = some dir →
        o.Bindings =
          [{ Keys := "Ctrl-N"
             Description := "create a note with the query as title" ++
               (if dir.Name = "" then "" else " in " ++ dir.Name ++ "/")
             Action := "abort+execute(" ++ zkBin ++ " new " ++ dir.Path ++
               " --title \x7bq\x7d < /dev/tty > /dev/tty)" }]) := by
  obtain ⟨zkBin, hbin, ho⟩ := find_new_event f w opts o h
  refine ⟨zkBin, hbin, ?_, ?_⟩
  · intro hnone
    rw [ho, hnone]
    rfl
  · intro dir hdir
    rw [ho, hdir]
    by_cases hname : dir.Name = "" <;> simp [fzfOpts, bindings, hname]

/-- C13 at the directory `journal` and the executable `/usr/local/bin/zk`: one
binding, described "create a note with the query as title in journal/", whose
action contains "/usr/local/bin/zk new journal --title". -/
theorem find_bindings_witness :
    (∃ zkBin, (exWorld (fun rows => .ok rows)).Executable = .ok zkBin ∧
      ((exFinderWith false (some exJournal) exStyler ([exA], none)).opts.NewNoteDir = none →
        (fzfOpts (some exJournal) "/usr/local/bin/zk").Bindings = []) ∧
      (∀ dir, (exFinderWith false (some exJournal) exStyler ([exA], none)).opts.NewNoteDir
          = some dir →
        (fzfOpts (some exJournal) "/usr/local/bin/zk").Bindings =
          [{ Keys := "Ctrl-N"
             Description := "create a note with the query as title" ++
               (if dir.Name = "" then "" else " in " ++ dir.Name ++ "/")
             Action := "abort+execute(" ++ zkBin ++ " new " ++ dir.Path ++
               " --title \x7bq\x7d < /dev/tty > /dev/tty)" }])) ∧
    (fzfOpts (some exJournal) "/usr/local/bin/zk").Bindings =
      [{ Keys := "Ctrl-N"
         Description := "create a note with the query as title in journal/"
         Action := "abort+execute(" ++ "/usr/local/bin/zk new journal --title" ++
           " \x7bq\x7d < /dev/tty > /dev/tty)" }] :=
  ⟨find_bindings (exFinderWith false (some exJournal) exStyler ([exA], none))
      (exWorld (fun rows => .ok rows)) exOpts (fzfOpts (some exJournal) "/usr/local/bin/zk")
      (by decide),
   by decide⟩

/-- C14: on the interactive path, when the picker returns an empty selection and no
error, `Find` returns the empty list and a nil error, whatever the base result. -/
theorem find_cancel (f : NoteFinder) (w : World) (opts : FinderOpts) (zkBin : String)
    (rows : List Row)
    (hint : (popInteractiveFilter opts).1 = true)
    (herr : (f.finder (popInteractiveFilter opts).2).2 = none)
    (hgo : f.opts.AlwaysFilter = true ∨ (f.finder (popInteractiveFilter opts).2).1 ≠ [])
    (hbin : w.Executable = .ok zkBin)
    (hnew : w.New (fzfOpts f.opts.NewNoteDir zkBin) = none)
    (hfed : fedRows f.styler w.JoinLines (f.finder (popInteractiveFilter opts).2).1 = .ok rows)
    (hsel : w.Selection (fzfOpts f.opts.NewNoteDir zkBin) rows = .ok []) :
    (f.Find w opts).2 = Outcome.returned [] none := by
  rw [find_interactive f w opts zkBin hint herr hgo hbin hnew]
  simp only [hfed, hsel, reconcileLoop]

/-- C14 at the base result `a.md`, `b.md`, `c.md` and a picker left without a
selection. -/
theorem find_cancel_witness :
    ((exFinder false ([exA, exB, exC], none)).Find (exWorld (fun _ => .ok [])) exOpts).2 =
      Outcome.returned [] none :=
  find_cancel (exFinder false ([exA, exB, exC], none)) (exWorld (fun _ => .ok [])) exOpts
    "/usr/local/bin/zk"
    [["a.md", "Alpha", "first second"], ["b.md", "Beta", ""], ["c.md", "Gamma", "only"]]
    (by decide) rfl (Or.inr (by decide)) rfl rfl rfl rfl

/-- C15: on the interactive path, when resolving the executable, opening the session
or reading the selection fails with `e`, `Find` returns the empty list and `e`. -/
theorem find_picker_error (f : NoteFinder) (w : World) (opts : FinderOpts) (e : Error)
    (hint : (popInteractiveFilter opts).1 = true)
    (herr : (f.finder (popInteractiveFilter opts).2).2 = none)
    (hgo : f.opts.AlwaysFilter = true ∨ (f.finder (popInteractiveFilter opts).2).1 ≠ []) :
    (w.Executable = .error e → (f.Find w opts).2 = Outcome.returned [] (some e)) ∧
    (∀ zkBin, w.Executable = .ok zkBin →
      w.New (fzfOpts f.opts.NewNoteDir zkBin) = some e →
      (f.Find w opts).2 = Outcome.returned [] (some e)) ∧
    (∀ zkBin rows, w.Executable = .ok zkBin →
      w.New (fzfOpts f.opts.NewNoteDir zkBin) = none →
      fedRows f.styler w.JoinLines (f.finder (popInteractiveFilter opts).2).1 = .ok rows →
      w.Selection (fzfOpts f.opts.NewNoteDir zkBin) rows = .error e →
      (f.Find w opts).2 = Outcome.returned [] (some e)) := by
  refine ⟨?_, ?_, ?_⟩
  · intro hbin
    rw [find_no_executable f w opts e hint herr hgo hbin]
  · intro zkBin hbin hnew
    rw [find_no_session f w opts zkBin e hint herr hgo hbin hnew]
  · intro zkBin rows hbin hnew hfed hsel
    rw [find_interactive f w opts zkBin hint herr hgo hbin hnew]
    simp only [hfed, hsel]

/-- C15 at a base result of three notes: an executable that cannot be resolved, a
session that cannot be opened, a selection that cannot be read. -/
theorem find_picker_error_witness :
    ((exFinder false ([exA, exB, exC], none)).Find exWorldNoBin exOpts).2 =
      Outcome.returned [] (some { msg := "no executable" }) ∧
    ((exFinder false ([exA, exB, exC], none)).Find exWorldNoSession exOpts).2 =
      Outcome.returned [] (some { msg := "fzf not found" }) ∧
    ((exFinder false ([exA, exB, exC], none)).Find
        (exWorld (fun _ => .error { msg := "broken pipe" })) exOpts).2 =
      Outcome.returned [] (some { msg := "broken pipe" }) :=
  ⟨(find_picker_error (exFinder false ([exA, exB, exC], none)) exWorldNoBin exOpts
      { msg := "no executable" } (by decide) rfl (Or.inr (by decide))).1 rfl,
   (find_picker_error (exFinder false ([exA, exB, exC], none)) exWorldNoSession exOpts
      { msg := "fzf not found" } (by decide) rfl (Or.inr (by decide))).2.1
      "/usr/local/bin/zk" rfl rfl,
   (find_picker_error (exFinder false ([exA, exB, exC], none))
      (exWorld (fun _ => .error { msg := "broken pipe" })) exOpts
      { msg := "broken pipe" } (by decide) rfl (Or.inr (by decide))).2.2
      "/usr/local/bin/zk"
      [["a.md", "Alpha", "first second"], ["b.md", "Beta", ""], ["c.md", "Gamma", "only"]]
      rfl rfl rfl rfl⟩

/-- C16 as stated fails: with a styler that fails, `Find` on the interactive path
does not return the empty result with the style error; the call panics. -/
theorem style_failure_not_returned :
    ((exFinderWith false none exFailStyler ([exA], none)).Find
        (exWorld (fun rows => .ok rows)) exOpts).2 =
      Outcome.panicked (Panic.styleFailed { msg := "unknown rule" }) ∧
    ((exFinderWith false none exFailStyler ([exA], none)).Find
        (exWorld (fun rows => .ok rows)) exOpts).2 ≠
      Outcome.returned [] (some { msg := "unknown rule" }) := by
  decide

/-- C16, amended: on the interactive path, when `MustStyle` fails on the title or
the joined body of a base match while the rows are fed, `Find` does not return:
the call ends in the panic of the first failing `MustStyle` call (base matches in
order, the title before the body), carrying the style error of that call; that
call is the last one made and the selection is never read. -/
theorem find_style_failure (f : NoteFinder) (w : World) (opts : FinderOpts) (zkBin : String)
    (hint : (popInteractiveFilter opts).1 = true)
    (herr : (f.finder (popInteractiveFilter opts).2).2 = none)
    (hgo : f.opts.AlwaysFilter = true ∨ (f.finder (popInteractiveFilter opts).2).1 ≠ [])
    (hbin : w.Executable = .ok zkBin)
    (hnew : w.New (fzfOpts f.opts.NewNoteDir zkBin) = none)
    (hfail : ∃ m ∈ (f.finder (popInteractiveFilter opts).2).1,
      (∃ e, f.styler.MustStyle m.Title Rule.RuleYellow = .error e) ∨
      ∃ e, f.styler.MustStyle (w.JoinLines m.Body) Rule.RuleBlack = .error e) :
    ∃ e pre m post,
      (f.finder (popInteractiveFilter opts).2).1 = pre ++ m :: post ∧
      (∀ x ∈ pre, (∃ t, f.styler.MustStyle x.Title Rule.RuleYellow = .ok t) ∧
        ∃ b, f.styler.MustStyle (w.JoinLines x.Body) Rule.RuleBlack = .ok b) ∧
      (f.styler.MustStyle m.Title Rule.RuleYellow = .error e ∨
        ((∃ t, f.styler.MustStyle m.Title Rule.RuleYellow = .ok t) ∧
          f.styler.MustStyle (w.JoinLines m.Body) Rule.RuleBlack = .error e)) ∧
      (f.Find w opts).2 = Outcome.panicked (Panic.styleFailed e) ∧
      (∀ result err, (f.Find w opts).2 ≠ Outcome.returned result err) ∧
      (∃ text rule, (f.Find w opts).1.getLast? = some (Event.mustStyle text rule) ∧
        f.styler.MustStyle text rule = .error e) ∧
      Event.fzfSelection ∉ (f.Find w opts).1 := by
  obtain ⟨e, pre, m, post, hsplit, hpre, hm, hfed⟩ :=
    fedRows_first_fail f.styler w.JoinLines _ hfail
  have hout : (f.Find w opts).2 = Outcome.panicked (Panic.styleFailed e) := by
    rw [find_interactive f w opts zkBin hint herr hgo hbin hnew, hfed]
  have htrace := find_interactive_events f w opts zkBin hint herr hgo hbin hnew
  rw [hfed] at htrace
  simp only [] at htrace
  refine ⟨e, pre, m, post, hsplit, hpre, hm, hout, ?_, ?_, ?_⟩
  · intro result err h
    rw [hout] at h
    cases h
  · rw [htrace]
    apply feedLoop_last_event
    rw [feedLoop_rows, hfed]
    rfl
  · rw [htrace]
    obtain ⟨extra, hx, hk⟩ := feedLoop_events_kind f.styler w.JoinLines
      (f.finder (popInteractiveFilter opts).2).1
      ([Event.finderFind (popInteractiveFilter opts).2] ++ [Event.osExecutable] ++
        [Event.fzfNew (fzfOpts f.opts.NewNoteDir zkBin)]) []
    simp only [hx]
    intro hmem
    rcases List.mem_append.1 hmem with h₁ | h₁
    · simp at h₁
    · rcases hk _ h₁ with ⟨t, r, h₂⟩ | ⟨row, h₂⟩ <;> cases h₂

/-- C16, amended, at the base result `a.md`, `b.md`, `c.md` and a styler that
styles `a.md` and fails on both the title and the body of `b.md`: the panic
carries the error of the title of `b.md`, the first failing call. -/
theorem find_style_failure_witness :
    (∃ e pre m post,
      [exA, exB, exC] = pre ++ m :: post ∧
      (∀ x ∈ pre, (∃ t, exPickyStyler.MustStyle x.Title Rule.RuleYellow = .ok t) ∧
        ∃ b, exPickyStyler.MustStyle (" ".intercalate x.Body) Rule.RuleBlack = .ok b) ∧
      (exPickyStyler.MustStyle m.Title Rule.RuleYellow = .error e ∨
        ((∃ t, exPickyStyler.MustStyle m.Title Rule.RuleYellow = .ok t) ∧
          exPickyStyler.MustStyle (" ".intercalate m.Body) Rule.RuleBlack = .error e)) ∧
      ((exFinderWith false none exPickyStyler ([exA, exB, exC], none)).Find
        (exWorld (fun rows => .ok rows)) exOpts).2 = Outcome.panicked (Panic.styleFailed e) ∧
      (∀ result err, ((exFinderWith false none exPickyStyler ([exA, exB, exC], none)).Find
        (exWorld (fun rows => .ok rows)) exOpts).2 ≠ Outcome.returned result err) ∧
      (∃ text rule, ((exFinderWith false none exPickyStyler ([exA, exB, exC], none)).Find
          (exWorld (fun rows => .ok rows)) exOpts).1.getLast? =
            some (Event.mustStyle text rule) ∧
        exPickyStyler.MustStyle text rule = .error e) ∧
      Event.fzfSelection ∉ ((exFinderWith false none exPickyStyler ([exA, exB, exC], none)).Find
        (exWorld (fun rows => .ok rows)) exOpts).1) ∧
    ((exFinderWith false none exPickyStyler ([exA, exB, exC], none)).Find
        (exWorld (fun rows => .ok rows)) exOpts).2 =
      Outcome.panicked (Panic.styleFailed { msg := "bad title" }) ∧
    ((exFinderWith false none exPickyStyler ([exA, exB, exC], none)).Find
        (exWorld (fun rows => .ok rows)) exOpts).1.getLast? =
      some (Event.mustStyle "Beta" Rule.RuleYellow) ∧
    exPickyStyler.MustStyle (" ".intercalate exB.Body) Rule.RuleBlack =
      .error { msg := "bad body" } :=
  ⟨find_style_failure (exFinderWith false none exPickyStyler ([exA, exB, exC], none))
      (exWorld (fun rows => .ok rows)) exOpts "/usr/local/bin/zk"
      (by decide) rfl (Or.inr (by decide)) rfl rfl
      ⟨exB, by decide, Or.inr ⟨_, rfl⟩⟩,
   rfl, rfl, rfl⟩

/-- C17: on the interactive path, when the styler returns for every base match,
`Find` adds exactly one row per base match, in base-result order, each made of
the match's `Path` as it is, the styled title and the styled joined body. -/
theorem find_feeds_rows (f : NoteFinder) (w : World) (opts : FinderOpts) (zkBin : String)
    (hint : (popInteractiveFilter opts).1 = true)
    (herr : (f.finder (popInteractiveFilter opts).2).2 = none)
    (hgo : f.opts.AlwaysFilter = true ∨ (f.finder (popInteractiveFilter opts).2).1 ≠ [])
    (hbin : w.Executable = .ok zkBin)
    (hnew : w.New (fzfOpts f.opts.NewNoteDir zkBin) = none)
    (hsty : ∀ m ∈ (f.finder (popInteractiveFilter opts).2).1,
      (∃ t, f.styler.MustStyle m.Title Rule.RuleYellow = .ok t) ∧
      ∃ b, f.styler.MustStyle (w.JoinLines m.Body) Rule.RuleBlack = .ok b) :
    ∃ rows, fedRows f.styler w.JoinLines (f.finder (popInteractiveFilter opts).2).1 = .ok rows ∧
      addedRows (f.Find w opts).1 = rows ∧
      rows.length = (f.finder (popInteractiveFilter opts).2).1.length ∧
      List.Forall₂ (fun m row => ∃ t b,
        f.styler.MustStyle m.Title Rule.RuleYellow = .ok t ∧
        f.styler.MustStyle (w.JoinLines m.Body) Rule.RuleBlack = .ok b ∧
        row = [m.Path, t, b]) (f.finder (popInteractiveFilter opts).2).1 rows := by
  obtain ⟨rows, hfed, _⟩ := fedRows_ok f.styler w.JoinLines _ hsty
  have hloop := feedLoop_rows f.styler w.JoinLines (f.finder (popInteractiveFilter opts).2).1
    ([Event.finderFind (popInteractiveFilter opts).2] ++ [Event.osExecutable] ++
      [Event.fzfNew (fzfOpts f.opts.NewNoteDir zkBin)]) []
  rw [hfed] at hloop
  simp only [Except.map, List.nil_append] at hloop
  obtain ⟨added, hadd, hev, hall⟩ := feedLoop_added f.styler w.JoinLines _ _ _ rows hloop
  simp only [List.nil_append] at hadd
  subst hadd
  refine ⟨rows, hfed, ?_, hall.length_eq.symm, hall⟩
  rw [find_interactive_events f w opts zkBin hint herr hgo hbin hnew, hfed]
  simp only []
  have hsplit : ∀ l : List Event, addedRows (l ++ [Event.fzfSelection]) = addedRows l := by
    intro l
    simp [addedRows, List.filterMap_append]
  rw [hsplit, hev]
  simp [addedRows]

/-- C17 at the base result `a.md`, `b.md`, `c.md` and the styler that leaves text
as it is. -/
theorem find_feeds_rows_witness :
    (∃ rows, fedRows exStyler (fun lines => " ".intercalate lines) [exA, exB, exC] = .ok rows ∧
      addedRows ((exFinder false ([exA, exB, exC], none)).Find
        (exWorld (fun rows => .ok rows)) exOpts).1 = rows ∧
      rows.length = [exA, exB, exC].length ∧
      List.Forall₂ (fun m row => ∃ t b,
        exStyler.MustStyle m.Title Rule.RuleYellow = .ok t ∧
        exStyler.MustStyle (" ".intercalate m.Body) Rule.RuleBlack = .ok b ∧
        row = [m.Path, t, b]) [exA, exB, exC] rows) ∧
    addedRows ((exFinder false ([exA, exB, exC], none)).Find
        (exWorld (fun rows => .ok rows)) exOpts).1 =
      [["a.md", "Alpha", "first second"], ["b.md", "Beta", ""], ["c.md", "Gamma", "only"]] :=
  ⟨find_feeds_rows (exFinder false ([exA, exB, exC], none)) (exWorld (fun rows => .ok rows))
      exOpts "/usr/local/bin/zk" (by decide) rfl (Or.inr (by decide)) rfl rfl
      (by
        intro m _
        exact ⟨⟨_, rfl⟩, ⟨_, rfl⟩⟩),
   by decide⟩

/-- C18: column 0 of each selection row is read by index: when every row has a
column the loop returns a result, and when a row has none the loop ends in the
index-out-of-range panic. -/
theorem reconcile_column0_index (ms : List Match) (selection : List Row) :
    ((∀ s ∈ selection, s ≠ []) → ∃ result, reconcileLoop ms selection [] = .ok result) ∧
    ([] ∈ selection →
      reconcileLoop ms selection [] = .error Panic.indexOutOfRange) := by
  constructor
  · intro hrows
    exact ⟨_, reconcileLoop_ok ms selection [] hrows⟩
  · intro hmem
    exact reconcileLoop_empty_row ms selection [] hmem

/-- C18 at the notes `a.md`, `b.md`, `c.md`: the selection `c.md`, `a.md` gives a
result, and the selection `c.md`, empty row, `a.md` panics, in the loop and in
`Find`. -/
theorem reconcile_column0_index_witness :
    (∃ result, reconcileLoop [exA, exB, exC] [["c.md"], ["a.md"]] [] = .ok result) ∧
    reconcileLoop [exA, exB, exC] [["c.md"], [], ["a.md"]] [] =
      .error Panic.indexOutOfRange ∧
    ((exFinder false ([exA, exB, exC], none)).Find
        (exWorld (fun _ => .ok [["c.md"], [], ["a.md"]])) exOpts).2 =
      Outcome.panicked Panic.indexOutOfRange :=
  ⟨(reconcile_column0_index [exA, exB, exC] [["c.md"], ["a.md"]]).1 (by decide),
   (reconcile_column0_index [exA, exB, exC] [["c.md"], [], ["a.md"]]).2 (by decide),
   rfl⟩

end Fzf
